import Mathlib

/-!
Shallow embedding of the sleep_monitoring repository's algorithmic core:
`sleep_monitoring/metrics.py` (sample-interval estimation, desaturation
detection, time-below-threshold, ODI, session summary),
`sleep_monitoring/data_io.py` (`compute_sleep_date`), and the clinic app's
`detect_desaturation_events` together with `load_log`'s `dt_sec`
preprocessing (`sleepu_clinic_app.py`).

Modelling conventions:
- A pandas row becomes a `Sample`; `timestamp_local` is modelled as rational
  seconds on a common clock (timestamps parsed by pandas are never NaT in
  the flows under study, so the timestamp field is total); nullable `spo2`
  and `hr` columns become `Option ℤ`.
- `sort_values("timestamp_local")` becomes a stable insertion sort by
  timestamp.
- `Series.median()` becomes `medianQ`: sort, take the middle element, or the
  mean of the two middle elements for an even count.
- pandas comparisons on missing values (`NaN < threshold`) are `False`,
  modelled by `belowFlag` returning `false` on `none`.
- The `groupby` over `cumsum` of classification changes becomes `splitRuns`,
  which groups maximal runs of constant classification.
-/

structure Sample where
  timestamp : ℚ
  spo2 : Option ℤ
  hr : Option ℤ
  deriving DecidableEq, Repr, Inhabited

/-- Ordering of samples by `timestamp_local`, as used by `sort_values`. -/
def timeLE (a b : Sample) : Prop := a.timestamp ≤ b.timestamp

instance : DecidableRel timeLE := fun a b =>
  inferInstanceAs (Decidable (a.timestamp ≤ b.timestamp))

instance : IsTotal Sample timeLE := ⟨fun a b => le_total a.timestamp b.timestamp⟩

instance : IsTrans Sample timeLE := ⟨fun _ _ _ h h' => le_trans h h'⟩

/-- Model of `df.sort_values("timestamp_local")`, as a stable sort. -/
def sortByTime (df : List Sample) : List Sample := List.insertionSort timeLE df

/-- Model of `df.dropna(subset=["spo2", "timestamp_local"])`; timestamps are total in
the model, so only null `spo2` rows are dropped. -/
def dropNull (df : List Sample) : List Sample := df.filter (fun s => s.spo2.isSome)

/-- Model of `Series.diff().dropna()` on a timestamp column: consecutive deltas, the
undefined first difference removed. -/
def consecutiveDeltas : List ℚ → List ℚ
  | [] => []
  | [_] => []
  | a :: b :: rest => (b - a) :: consecutiveDeltas (b :: rest)

/-- Model of `Series.median()` on a list with no missing values: middle of the sorted
list, or the mean of the two middle elements when the count is even. -/
def medianQ (l : List ℚ) : ℚ :=
  let s := List.insertionSort (· ≤ ·) l
  let n := s.length
  if n = 0 then 0
  else if n % 2 = 1 then s.getD (n / 2) 0
  else (s.getD (n / 2 - 1) 0 + s.getD (n / 2) 0) / 2

/-- Model of `metrics._estimate_sample_interval`. -/
def estimate_sample_interval (df : List Sample) : ℚ :=
  if df.length < 2 then 0
  else
    let deltas := consecutiveDeltas (df.map (·.timestamp))
    if deltas.isEmpty then 0
    else medianQ deltas

/-- Classification `spo2 < threshold` of one row; pandas yields `False` on a missing value. -/
def belowFlag (threshold : ℤ) (s : Sample) : Bool :=
  match s.spo2 with
  | none => false
  | some v => v < threshold

/-- Maximal runs of constant classification: the model of grouping by the
`cumsum` of classification changes in both detectors. -/
def splitRuns {α : Type} (p : α → Bool) : List α → List (List α)
  | [] => []
  | a :: rest =>
    match splitRuns p rest with
    | [] => [[a]]
    | [] :: rs => [a] :: rs
    | (b :: r) :: rs =>
      if p a = p b then (a :: b :: r) :: rs else [a] :: (b :: r) :: rs

/-- The test `if not group_df["below"].iloc[0]: continue` keeps runs whose first row is
below threshold. -/
def headBelow (threshold : ℤ) (r : List Sample) : Bool :=
  match r.head? with
  | some s => belowFlag threshold s
  | none => false

/-- The below-threshold runs of an already-processed sample list. -/
def belowRuns (threshold : ℤ) (l : List Sample) : List (List Sample) :=
  (splitRuns (belowFlag threshold) l).filter (headBelow threshold)

/-- First `timestamp_local` of a run (`.iloc[0]`). -/
def firstTime (r : List Sample) : ℚ := ((r.head?).map (·.timestamp)).getD 0

/-- Last `timestamp_local` of a run (`.iloc[-1]`). -/
def lastTime (r : List Sample) : ℚ := ((r.getLast?).map (·.timestamp)).getD 0

/-- The non-null `spo2` values of a run, in order. -/
def spo2Vals (r : List Sample) : List ℤ := r.filterMap (·.spo2)

/-- Minimum of a list of integers (`Series.min` skips missing values; only
used on nonempty value lists). -/
def minLst (l : List ℤ) : ℤ :=
  match l with
  | [] => 0
  | v :: vs => vs.foldl min v

/-- Model of `int(group_df["spo2"].min())`. -/
def runNadir (r : List Sample) : ℤ := minLst (spo2Vals r)

/-- Model of `float(group_df["spo2"].mean())`: mean over the non-null values. -/
def runMean (r : List Sample) : ℚ := ((spo2Vals r).sum : ℚ) / ((spo2Vals r).length : ℚ)

structure DesatEvent where
  start_time_local : ℚ
  end_time_local : ℚ
  duration_sec : ℚ
  nadir_spo2 : ℤ
  mean_spo2 : ℚ
  deriving DecidableEq, Repr, Inhabited

/-- Model of `metrics.compute_desaturations`. -/
def compute_desaturations (df : List Sample) (threshold : ℤ) (min_duration_sec : ℚ) :
    List DesatEvent :=
  if df.isEmpty then []
  else
    let ds := dropNull (sortByTime df)
    if ds.isEmpty then []
    else
      let sample_interval := estimate_sample_interval ds
      (belowRuns threshold ds).filterMap (fun r =>
        let start_time := firstTime r
        let end_time := lastTime r
        let duration := end_time - start_time + sample_interval
        if duration < min_duration_sec then none
        else some {
          start_time_local := start_time
          end_time_local := end_time + sample_interval
          duration_sec := duration
          nadir_spo2 := runNadir r
          mean_spo2 := runMean r })

/-- Model of `metrics.analysed_duration_seconds`. -/
def analysed_duration_seconds (df : List Sample) : ℚ :=
  if df.isEmpty then 0
  else
    let ds := sortByTime df
    lastTime ds - firstTime ds

/-- Model of `metrics.compute_time_below_threshold`: the pair is
`(total_seconds_below, fraction_of_analysed_time)`. Unlike
`compute_desaturations`, no `dropna` is applied before grouping. -/
def compute_time_below_threshold (df : List Sample) (threshold : ℤ) : ℚ × ℚ :=
  if df.isEmpty then (0, 0)
  else
    let ds := sortByTime df
    let sample_interval := estimate_sample_interval ds
    let total_below :=
      ((belowRuns threshold ds).map (fun r => lastTime r - firstTime r + sample_interval)).sum
    let analysed := analysed_duration_seconds ds
    (total_below, if analysed = 0 then 0 else total_below / analysed)

/-- Model of `metrics.compute_odi`. -/
def compute_odi (events : List DesatEvent) (analysed_duration_hours : ℚ) : ℚ :=
  if analysed_duration_hours ≤ 0 then 0
  else (events.length : ℚ) / analysed_duration_hours

structure SessionSummary where
  analysed_duration_hours : ℚ
  spo2_min : Option ℤ
  spo2_mean : Option ℚ
  hr_min : Option ℤ
  hr_mean : Option ℚ
  time_below_threshold_sec : ℚ
  time_below_threshold_fraction : ℚ
  events_count : ℕ
  odi : ℚ
  deriving DecidableEq, Repr

/-- Model of `metrics.summarize_session`. -/
def summarize_session (df : List Sample) (threshold : ℤ) (min_duration_sec : ℚ) :
    SessionSummary :=
  if df.isEmpty then
    { analysed_duration_hours := 0
      spo2_min := none
      spo2_mean := none
      hr_min := none
      hr_mean := none
      time_below_threshold_sec := 0
      time_below_threshold_fraction := 0
      events_count := 0
      odi := 0 }
  else
    let ds := sortByTime df
    let analysed_hours := analysed_duration_seconds ds / 3600
    let desats := compute_desaturations ds threshold min_duration_sec
    let below := compute_time_below_threshold ds threshold
    let sv := ds.filterMap (·.spo2)
    let hv := ds.filterMap (·.hr)
    { analysed_duration_hours := analysed_hours
      spo2_min := if sv.isEmpty then none else some (minLst sv)
      spo2_mean := if sv.isEmpty then none else some ((sv.sum : ℚ) / (sv.length : ℚ))
      hr_min := if hv.isEmpty then none else some (minLst hv)
      hr_mean := if hv.isEmpty then none else some ((hv.sum : ℚ) / (hv.length : ℚ))
      time_below_threshold_sec := below.1
      time_below_threshold_fraction := below.2
      events_count := desats.length
      odi := compute_odi desats analysed_hours }

structure ClinicEvent where
  start_time : ℚ
  end_time : ℚ
  duration_sec : ℚ
  nadir_spo2 : ℤ
  mean_spo2 : ℚ
  deriving DecidableEq, Repr, Inhabited

/-- The `dt_sec` preprocessing of `sleepu_clinic_app.load_log`: sort by
timestamp, attach to each row its delta from the previous row, and fill the
undefined first delta with the median delta (or `2.0` when there is no
delta). -/
def clinicDt (df : List Sample) : List (Sample × ℚ) :=
  let sorted := sortByTime df
  let deltas := consecutiveDeltas (sorted.map (·.timestamp))
  let median_dt := if deltas.isEmpty then 2 else medianQ deltas
  sorted.zip (median_dt :: deltas)

/-- Whether a `(row, dt_sec)` pair is classified `desat` by the clinic app
(`df["spo2"] < thresh`; missing values compare `False`). -/
def clinicBelow (thresh : ℤ) (sd : Sample × ℚ) : Bool := belowFlag thresh sd.1

/-- Model of `sleepu_clinic_app.detect_desaturation_events`, restricted to the events
DataFrame it returns (the accompanying `stats` dict is not referenced by any
claim and is omitted). The input carries the per-row `dt_sec` column that
`load_log` precomputes. -/
def detect_desaturation_events (dfdt : List (Sample × ℚ)) (thresh : ℤ)
    (min_duration_sec : ℚ) : List ClinicEvent :=
  if dfdt.isEmpty then []
  else
    ((splitRuns (clinicBelow thresh) dfdt).filter
        (fun seg =>
          match seg.head? with
          | some sd => clinicBelow thresh sd
          | none => false)).filterMap
      (fun seg =>
        let duration := (seg.map (·.2)).sum
        if duration < min_duration_sec then none
        else some {
          start_time := firstTime (seg.map (·.1))
          end_time := lastTime (seg.map (·.1))
          duration_sec := duration
          nadir_spo2 := runNadir (seg.map (·.1))
          mean_spo2 := runMean (seg.map (·.1)) })

/-- A Python `datetime` argument of `compute_sleep_date`: `secs` is the
seconds-since-epoch reading of its wall clock; for a naive datetime
(`aware = false`) the source attaches `tzinfo=timezone.utc` without changing
the reading, so `secs` is the UTC instant in both cases. -/
structure Instant where
  secs : ℤ
  aware : Bool
  deriving DecidableEq, Repr

/-- The cutoff `time(hour=12, minute=1)` as seconds past local midnight. -/
def cutoffSecs : ℤ := 12 * 3600 + 60

/-- Model of `data_io.compute_sleep_date`. The configured timezone is modelled as a
map `tz` from a UTC instant to its offset in seconds (covering DST);
`dt_utc.astimezone(LOCAL_TZ)` becomes adding that offset to the UTC seconds.
`dt_local.time() < cutoff` compares the local time-of-day with 12:01, and
`(dt_local - timedelta(days=1)).date()` is wall-clock arithmetic: subtract
86400 seconds, then take the calendar day. Python's floor division and
modulo by the positive constant 86400 coincide with `Int.ediv`/`Int.emod`
(`/` and `%` on `ℤ`). The returned date is its day number since the epoch. -/
def compute_sleep_date (tz : ℤ → ℤ) (dt : Instant) : ℤ :=
  let utcSecs := dt.secs
  let localSecs := utcSecs + tz utcSecs
  if localSecs % 86400 < cutoffSecs then (localSecs - 86400) / 86400
  else localSecs / 86400

/-- Scenario A input: samples at 2-second cadence, SpO2 `[95, 89, 88, 87, 91]`. -/
def scenarioA : List Sample :=
  [⟨0, some 95, none⟩, ⟨2, some 89, none⟩, ⟨4, some 88, none⟩,
   ⟨6, some 87, none⟩, ⟨8, some 91, none⟩]

/-- An input with a missing SpO2 value between two below-threshold samples. -/
def nullGapInput : List Sample :=
  [⟨0, some 89, none⟩, ⟨2, none, none⟩, ⟨4, some 89, none⟩]

/-- An input whose two below-threshold runs are separated by a gap much
shorter than the median sampling interval. -/
def overlapInput : List Sample :=
  [⟨0, some 89, none⟩, ⟨10, some 89, none⟩, ⟨20, some 89, none⟩,
   ⟨21, some 95, none⟩, ⟨22, some 89, none⟩, ⟨32, some 89, none⟩,
   ⟨42, some 89, none⟩]

/-- An irregularly sampled input: consecutive deltas of 1 s and 2 s. -/
def irregularInput : List Sample :=
  [⟨0, some 95, none⟩, ⟨1, some 89, none⟩, ⟨3, some 89, none⟩]

/-- An input in which every sample has a missing SpO2 value. -/
def allNullInput : List Sample :=
  [⟨0, none, none⟩, ⟨2, none, some 70⟩]

/-- A contiguous segment: `r` occurs in `l` as one consecutive block. -/
def SubSeg {α : Type} (r l : List α) : Prop := ∃ s t, l = s ++ r ++ t

theorem subSeg_of_mem_flatten {α : Type} {r : List α} {rs : List (List α)}
    (h : r ∈ rs) : SubSeg r rs.flatten := by
  induction rs with
  | nil => cases h
  | cons r0 rest ih =>
    rcases List.mem_cons.mp h with rfl | h'
    · exact ⟨[], rest.flatten, by simp⟩
    · obtain ⟨s, t, ht⟩ := ih h'
      exact ⟨r0 ++ s, t, by simp [ht]⟩

theorem splitRuns_flatten {α : Type} (p : α → Bool) :
    ∀ l : List α, (splitRuns p l).flatten = l
  | [] => rfl
  | a :: rest => by
    have ih := splitRuns_flatten p rest
    cases h : splitRuns p rest with
    | nil =>
      rw [h] at ih
      simp only [List.flatten_nil] at ih
      simp [splitRuns, h, ← ih]
    | cons r0 rs =>
      cases r0 with
      | nil =>
        rw [h] at ih
        simp only [List.flatten_cons, List.nil_append] at ih
        simp [splitRuns, h, ih]
      | cons b r =>
        rw [h] at ih
        simp only [List.flatten_cons] at ih
        by_cases hpb : p a = p b
        · simp [splitRuns, h, hpb, ih]
        · simp [splitRuns, h, hpb, ih]

theorem splitRuns_ne_nil {α : Type} (p : α → Bool) :
    ∀ (l : List α), ∀ r ∈ splitRuns p l, r ≠ []
  | [], r, hr => by cases hr
  | a :: rest, r, hr => by
    cases h : splitRuns p rest with
    | nil =>
      have heq : splitRuns p (a :: rest) = [[a]] := by simp [splitRuns, h]
      rw [heq] at hr
      rcases List.mem_singleton.mp hr with rfl
      simp
    | cons r0 rs =>
      cases r0 with
      | nil =>
        have heq : splitRuns p (a :: rest) = [a] :: rs := by simp [splitRuns, h]
        rw [heq] at hr
        rcases List.mem_cons.mp hr with rfl | hr'
        · simp
        · exact splitRuns_ne_nil p rest r (by rw [h]; exact List.mem_cons_of_mem _ hr')
      | cons b r0t =>
        by_cases hpb : p a = p b
        · have heq : splitRuns p (a :: rest) = (a :: b :: r0t) :: rs := by
            simp [splitRuns, h, hpb]
          rw [heq] at hr
          rcases List.mem_cons.mp hr with rfl | hr'
          · simp
          · exact splitRuns_ne_nil p rest r (by rw [h]; exact List.mem_cons_of_mem _ hr')
        · have heq : splitRuns p (a :: rest) = [a] :: (b :: r0t) :: rs := by
            simp [splitRuns, h, hpb]
          rw [heq] at hr
          rcases List.mem_cons.mp hr with rfl | hr'
          · simp
          · exact splitRuns_ne_nil p rest r (by rw [h]; exact hr')

theorem splitRuns_const {α : Type} (p : α → Bool) :
    ∀ (l : List α), ∀ r ∈ splitRuns p l, ∀ x ∈ r, ∀ y ∈ r, p x = p y
  | [], r, hr => by cases hr
  | a :: rest, r, hr => by
    cases h : splitRuns p rest with
    | nil =>
      have heq : splitRuns p (a :: rest) = [[a]] := by simp [splitRuns, h]
      rw [heq] at hr
      rcases List.mem_singleton.mp hr with rfl
      intro x hx y hy
      rcases List.mem_singleton.mp hx with rfl
      rcases List.mem_singleton.mp hy with rfl
      rfl
    | cons r0 rs =>
      cases r0 with
      | nil =>
        have heq : splitRuns p (a :: rest) = [a] :: rs := by simp [splitRuns, h]
        rw [heq] at hr
        rcases List.mem_cons.mp hr with rfl | hr'
        · intro x hx y hy
          rcases List.mem_singleton.mp hx with rfl
          rcases List.mem_singleton.mp hy with rfl
          rfl
        · exact splitRuns_const p rest r (by rw [h]; exact List.mem_cons_of_mem _ hr')
      | cons b r0t =>
        by_cases hpb : p a = p b
        · have heq : splitRuns p (a :: rest) = (a :: b :: r0t) :: rs := by
            simp [splitRuns, h, hpb]
          rw [heq] at hr
          rcases List.mem_cons.mp hr with rfl | hr'
          · have hmem0 : (b :: r0t) ∈ splitRuns p rest := by
              rw [h]; exact List.mem_cons_self _ _
            have hconst := splitRuns_const p rest (b :: r0t) hmem0
            have hall : ∀ z ∈ a :: b :: r0t, p z = p b := by
              intro z hz
              rcases List.mem_cons.mp hz with rfl | hz'
              · exact hpb
              · exact hconst z hz' b (List.mem_cons_self _ _)
            intro x hx y hy
            rw [hall x hx, hall y hy]
          · exact splitRuns_const p rest r (by rw [h]; exact List.mem_cons_of_mem _ hr')
        · have heq : splitRuns p (a :: rest) = [a] :: (b :: r0t) :: rs := by
            simp [splitRuns, h, hpb]
          rw [heq] at hr
          rcases List.mem_cons.mp hr with rfl | hr'
          · intro x hx y hy
            rcases List.mem_singleton.mp hx with rfl
            rcases List.mem_singleton.mp hy with rfl
            rfl
          · exact splitRuns_const p rest r (by rw [h]; exact hr')

theorem splitRuns_cons_shape {α : Type} (p : α → Bool) (a : α) (l : List α) :
    ∃ t rs, splitRuns p (a :: l) = (a :: t) :: rs := by
  cases h : splitRuns p l with
  | nil => exact ⟨[], [], by simp [splitRuns, h]⟩
  | cons r0 rs =>
    cases r0 with
    | nil => exact ⟨[], rs, by simp [splitRuns, h]⟩
    | cons b r =>
      by_cases hpb : p a = p b
      · exact ⟨b :: r, rs, by simp [splitRuns, h, hpb]⟩
      · exact ⟨[], (b :: r) :: rs, by simp [splitRuns, h, hpb]⟩

theorem splitRuns_cons_join {α : Type} (p : α → Bool) {a x : α} {l t : List α}
    {rs : List (List α)} (h : splitRuns p (x :: l) = (x :: t) :: rs)
    (hpa : p a = p x) : splitRuns p (a :: x :: l) = (a :: x :: t) :: rs := by
  have hstep : splitRuns p (a :: x :: l) =
      match splitRuns p (x :: l) with
      | [] => [[a]]
      | [] :: rs => [a] :: rs
      | (b :: r) :: rs => if p a = p b then (a :: b :: r) :: rs else [a] :: (b :: r) :: rs :=
    rfl
  rw [hstep, h]
  simp [hpa]

theorem subSeg_of_mem_splitRuns {α : Type} {p : α → Bool} {l r : List α}
    (h : r ∈ splitRuns p l) : SubSeg r l := by
  have := subSeg_of_mem_flatten h
  rwa [splitRuns_flatten] at this

theorem headBlockRun {α : Type} (p : α → Bool) :
    ∀ (r l : List α), (∃ s, l = r ++ s) → r ≠ [] → (∀ x ∈ r, p x = true) →
      ∃ t rs, splitRuns p l = (r ++ t) :: rs ∧ ∀ x ∈ r ++ t, p x = true
  | [], _, _, hne, _ => absurd rfl hne
  | [a], l, ⟨s, hs⟩, _, htrue => by
    subst hs
    obtain ⟨t, rs, hshape⟩ := splitRuns_cons_shape p a s
    refine ⟨t, rs, by simpa using hshape, ?_⟩
    intro x hx
    rcases List.mem_cons.mp (by simpa using hx) with rfl | hxt
    · exact htrue x (by simp)
    · have hmem : (a :: t) ∈ splitRuns p (a :: s) := by
        rw [hshape]; exact List.mem_cons_self _ _
      have hconst := splitRuns_const p _ _ hmem x (List.mem_cons_of_mem a hxt) a
        (List.mem_cons_self a t)
      rw [hconst]
      exact htrue a (by simp)
  | a :: b :: r1, l, ⟨s, hs⟩, _, htrue => by
    subst hs
    obtain ⟨t, rs, h1, htrue1⟩ :=
      headBlockRun p (b :: r1) (b :: r1 ++ s) ⟨s, by simp⟩ (by simp)
        (fun x hx => htrue x (List.mem_cons_of_mem a hx))
    have hpa : p a = p b := by
      rw [htrue a (by simp), htrue b (by simp)]
    have h2 := splitRuns_cons_join p (by simpa using h1) hpa
    refine ⟨t, rs, by simpa using h2, ?_⟩
    intro x hx
    rcases List.mem_cons.mp hx with rfl | hxt
    · exact htrue x (by simp)
    · exact htrue1 x hxt

theorem subSegRun {α : Type} (p : α → Bool) (r : List α) (hne : r ≠ [])
    (htrue : ∀ x ∈ r, p x = true) :
    ∀ l : List α, SubSeg r l →
      ∃ r', r' ∈ splitRuns p l ∧ (∀ x ∈ r', p x = true) ∧ SubSeg r r' := by
  intro l
  induction l with
  | nil =>
    rintro ⟨s, t, hst⟩
    exfalso
    apply hne
    cases r with
    | nil => rfl
    | cons x xs => cases s <;> simp at hst
  | cons a rest ih =>
    rintro ⟨s, t, hst⟩
    cases s with
    | nil =>
      simp only [List.nil_append] at hst
      obtain ⟨t', rs, hshape, htrue'⟩ := headBlockRun p r (a :: rest) ⟨t, hst⟩ hne htrue
      exact ⟨r ++ t', by rw [hshape]; exact List.mem_cons_self _ _, htrue',
        ⟨[], t', by simp⟩⟩
    | cons c s' =>
      have ha : a = c := by simpa using congrArg (fun u => u.headD a) hst
      have hrest : rest = s' ++ r ++ t := by
        have := congrArg List.tail hst
        simpa using this
      obtain ⟨r', hmem, htr', hsub⟩ := ih ⟨s', t, hrest⟩
      have hrne : r' ≠ [] := by
        obtain ⟨s2, t2, h2⟩ := hsub
        intro hcon
        rw [hcon] at h2
        apply hne
        cases r with
        | nil => rfl
        | cons x xs => cases s2 <;> simp at h2
      cases h : splitRuns p rest with
      | nil => rw [h] at hmem; cases hmem
      | cons r0 rs =>
        cases r0 with
        | nil =>
          have heq : splitRuns p (a :: rest) = [a] :: rs := by simp [splitRuns, h]
          rw [h] at hmem
          rcases List.mem_cons.mp hmem with rfl | hmem'
          · exact absurd rfl hrne
          · exact ⟨r', by rw [heq]; exact List.mem_cons_of_mem _ hmem', htr', hsub⟩
        | cons b r0t =>
          rw [h] at hmem
          by_cases hpb : p a = p b
          · have heq : splitRuns p (a :: rest) = (a :: b :: r0t) :: rs := by
              simp [splitRuns, h, hpb]
            rcases List.mem_cons.mp hmem with rfl | hmem'
            · refine ⟨a :: b :: r0t, by rw [heq]; exact List.mem_cons_self _ _, ?_, ?_⟩
              · intro x hx
                rcases List.mem_cons.mp hx with rfl | hx'
                · rw [hpb]; exact htr' b (List.mem_cons_self _ _)
                · exact htr' x hx'
              · obtain ⟨s2, t2, h2⟩ := hsub
                exact ⟨a :: s2, t2, by simp [h2]⟩
            · exact ⟨r', by rw [heq]; exact List.mem_cons_of_mem _ hmem', htr', hsub⟩
          · have heq : splitRuns p (a :: rest) = [a] :: (b :: r0t) :: rs := by
              simp [splitRuns, h, hpb]
            exact ⟨r', by rw [heq]; exact List.mem_cons_of_mem _ hmem, htr', hsub⟩

theorem sorted_sortByTime (df : List Sample) : List.Sorted timeLE (sortByTime df) :=
  List.sorted_insertionSort timeLE df

theorem mem_sortByTime {df : List Sample} {s : Sample} : s ∈ sortByTime df ↔ s ∈ df :=
  (List.perm_insertionSort timeLE df).mem_iff

theorem sorted_dropNull {l : List Sample} (h : List.Sorted timeLE l) :
    List.Sorted timeLE (dropNull l) := List.Pairwise.filter _ h

theorem sorted_timestamps {l : List Sample} (h : List.Sorted timeLE l) :
    List.Sorted (· ≤ ·) (l.map (·.timestamp)) :=
  List.Pairwise.map _ (fun _ _ hab => hab) h

theorem consecutiveDeltas_nonneg :
    ∀ {ts : List ℚ}, List.Sorted (· ≤ ·) ts → ∀ d ∈ consecutiveDeltas ts, 0 ≤ d
  | [], _, d, hd => by cases hd
  | [_], _, d, hd => by cases hd
  | a :: b :: rest, h, d, hd => by
    rw [show consecutiveDeltas (a :: b :: rest) = (b - a) :: consecutiveDeltas (b :: rest)
      from rfl] at hd
    rcases List.mem_cons.mp hd with rfl | hd'
    · have hab : a ≤ b := (List.sorted_cons.mp h).1 b (by simp)
      linarith
    · exact consecutiveDeltas_nonneg (List.sorted_cons.mp h).2 d hd'

theorem getD_mem_of_lt {α : Type} {l : List α} {n : ℕ} (h : n < l.length) (d : α) :
    l.getD n d ∈ l := by
  rw [List.getD_eq_getElem l d h]
  exact List.getElem_mem h

theorem medianQ_nonneg {l : List ℚ} (h : ∀ x ∈ l, 0 ≤ x) : 0 ≤ medianQ l := by
  have hmem : ∀ x ∈ List.insertionSort (· ≤ ·) l, 0 ≤ x := fun x hx =>
    h x ((List.perm_insertionSort _ l).subset hx)
  unfold medianQ
  dsimp only
  split
  · exact le_refl 0
  next h0 =>
    have hpos : 0 < (List.insertionSort (· ≤ ·) l).length := Nat.pos_of_ne_zero h0
    have hlt : (List.insertionSort (· ≤ ·) l).length / 2 <
        (List.insertionSort (· ≤ ·) l).length := Nat.div_lt_self hpos (by norm_num)
    have hlt' : (List.insertionSort (· ≤ ·) l).length / 2 - 1 <
        (List.insertionSort (· ≤ ·) l).length := lt_of_le_of_lt (Nat.sub_le _ _) hlt
    split
    · exact hmem _ (getD_mem_of_lt hlt 0)
    · have h1 := hmem _ (getD_mem_of_lt hlt' 0)
      have h2 := hmem _ (getD_mem_of_lt hlt 0)
      positivity

theorem estimate_sample_interval_nonneg {df : List Sample} (h : List.Sorted timeLE df) :
    0 ≤ estimate_sample_interval df := by
  unfold estimate_sample_interval
  split
  · exact le_refl 0
  · dsimp only
    split
    · exact le_refl 0
    · exact medianQ_nonneg (consecutiveDeltas_nonneg (sorted_timestamps h))

theorem sorted_of_subSeg {l r : List Sample} (hs : List.Sorted timeLE l)
    (h : SubSeg r l) : List.Sorted timeLE r := by
  obtain ⟨s, t, rfl⟩ := h
  have h1 : List.Sublist r (s ++ r) := List.sublist_append_right s r
  have h2 : List.Sublist (s ++ r) ((s ++ r) ++ t) := List.sublist_append_left (s ++ r) t
  exact List.Pairwise.sublist (h1.trans h2) hs

theorem firstTime_le_lastTime {r : List Sample} (hne : r ≠ [])
    (hs : List.Sorted timeLE r) : firstTime r ≤ lastTime r := by
  cases r with
  | nil => exact absurd rfl hne
  | cons a rest =>
    unfold firstTime lastTime
    rw [List.getLast?_eq_getLast (a :: rest) (by simp)]
    simp only [List.head?_cons, Option.map_some', Option.getD_some]
    have hmem := List.getLast_mem (l := a :: rest) (by simp)
    rcases List.mem_cons.mp hmem with heq | hmem'
    · rw [heq]
    · exact (List.sorted_cons.mp hs).1 _ hmem'

/-- Claim C4: for the five samples at exact 2-second cadence with SpO2
`[95, 89, 88, 87, 91]` and threshold 90, `compute_desaturations` identifies
exactly one below-threshold run, of 3 samples, with raw span 4 s, estimated
interval 2 s and duration 6 s; with `min_duration_seconds = 5` exactly one
event is emitted, and with `min_duration_seconds = 10` none. -/
theorem C4_scenarioA :
    (belowRuns 90 (dropNull (sortByTime scenarioA))).map (·.length) = [3] ∧
    (belowRuns 90 (dropNull (sortByTime scenarioA))).map
      (fun r => lastTime r - firstTime r) = [4] ∧
    estimate_sample_interval (dropNull (sortByTime scenarioA)) = 2 ∧
    (belowRuns 90 (dropNull (sortByTime scenarioA))).map
      (fun r => lastTime r - firstTime r +
        estimate_sample_interval (dropNull (sortByTime scenarioA))) = [6] ∧
    (compute_desaturations scenarioA 90 5).length = 1 ∧
    compute_desaturations scenarioA 90 10 = [] := by
  with_unfolding_all exact ⟨rfl, rfl, rfl, rfl, rfl, rfl⟩

/-- Claim C7: `compute_sleep_date` converts the UTC instant to the configured
local timezone and returns the previous local calendar day exactly when the
local time-of-day is strictly before 12:01, and the current local calendar
day otherwise; a local 11:59am instant maps to the previous day, a local
12:02pm instant maps to the current day, and naive inputs are treated as
UTC. -/
theorem C7_compute_sleep_date :
    (∀ (tz : ℤ → ℤ) (dt : Instant),
      compute_sleep_date tz dt =
        if (dt.secs + tz dt.secs) % 86400 < cutoffSecs
        then (dt.secs + tz dt.secs) / 86400 - 1
        else (dt.secs + tz dt.secs) / 86400) ∧
    (∀ (tz : ℤ → ℤ) (s : ℤ),
      compute_sleep_date tz ⟨s, false⟩ = compute_sleep_date tz ⟨s, true⟩) ∧
    compute_sleep_date (fun _ => -21600) ⟨43140 + 21600, true⟩ = -1 ∧
    compute_sleep_date (fun _ => -21600) ⟨43320 + 21600, true⟩ = 0 := by
  refine ⟨?_, ?_, by decide, by decide⟩
  · intro tz dt
    unfold compute_sleep_date
    dsimp only
    split
    · omega
    · rfl
  · intro tz s
    rfl

/-- Claim C8: `compute_odi` returns `events_count / analysed_duration_hours`
when the analysed duration is positive and exactly 0 when it is
non-positive; in particular a single-sample session has analysed duration 0
and ODI 0. -/
theorem C8_compute_odi (events : List DesatEvent) (h : ℚ) (s : Sample) (t : ℤ) (m : ℚ) :
    (0 < h → compute_odi events h = (events.length : ℚ) / h) ∧
    (h ≤ 0 → compute_odi events h = 0) ∧
    (summarize_session [s] t m).analysed_duration_hours = 0 ∧
    (summarize_session [s] t m).odi = 0 := by
  have hdur : analysed_duration_seconds [s] = 0 := by
    unfold analysed_duration_seconds
    simp [sortByTime, lastTime, firstTime, List.insertionSort]
  refine ⟨?_, ?_, ?_, ?_⟩
  · intro hpos
    unfold compute_odi
    rw [if_neg (not_le.mpr hpos)]
  · intro hle
    unfold compute_odi
    rw [if_pos hle]
  · unfold summarize_session
    rw [if_neg (by simp)]
    dsimp only
    rw [show sortByTime [s] = [s] from rfl, hdur]
    norm_num
  · unfold summarize_session
    rw [if_neg (by simp)]
    dsimp only
    rw [show sortByTime [s] = [s] from rfl, hdur]
    norm_num
    unfold compute_odi
    rw [if_pos (le_refl 0)]

/-- Witness for C8 at a concrete input: empty event list with negative and
positive analysed durations. -/
theorem C8_witness :
    compute_odi [] (-1) = 0 ∧ compute_odi [] 2 = 0 := by
  constructor
  · exact (C8_compute_odi [] (-1) default 90 10).2.1 (by norm_num)
  · have := (C8_compute_odi [] 2 default 90 10).1 (by norm_num)
    simpa using this

/-- Claim C9: `summarize_session` returns null extrema and means whenever no
sample carries a non-null SpO2 (likewise for heart rate), and an empty input
yields the all-null, all-zero summary without error. -/
theorem C9_summarize_missing (df : List Sample) (t : ℤ) (m : ℚ) :
    ((∀ s ∈ df, s.spo2 = none) →
      (summarize_session df t m).spo2_min = none ∧
      (summarize_session df t m).spo2_mean = none) ∧
    ((∀ s ∈ df, s.hr = none) →
      (summarize_session df t m).hr_min = none ∧
      (summarize_session df t m).hr_mean = none) ∧
    summarize_session [] t m =
      { analysed_duration_hours := 0, spo2_min := none, spo2_mean := none,
        hr_min := none, hr_mean := none, time_below_threshold_sec := 0,
        time_below_threshold_fraction := 0, events_count := 0, odi := 0 } := by
  refine ⟨?_, ?_, rfl⟩
  · intro hall
    have hnil : (sortByTime df).filterMap (·.spo2) = [] := by
      rw [List.filterMap_eq_nil_iff]
      intro s hs
      exact hall s (mem_sortByTime.mp hs)
    unfold summarize_session
    split
    · exact ⟨rfl, rfl⟩
    · dsimp only
      rw [hnil]
      simp
  · intro hall
    have hnil : (sortByTime df).filterMap (·.hr) = [] := by
      rw [List.filterMap_eq_nil_iff]
      intro s hs
      exact hall s (mem_sortByTime.mp hs)
    unfold summarize_session
    split
    · exact ⟨rfl, rfl⟩
    · dsimp only
      rw [hnil]
      simp

/-- Witness for C9 at a concrete all-null input. -/
theorem C9_witness :
    (summarize_session allNullInput 90 10).spo2_min = none ∧
    (summarize_session allNullInput 90 10).spo2_mean = none :=
  (C9_summarize_missing allNullInput 90 10).1 (by decide)

theorem consecutiveDeltas_length :
    ∀ ts : List ℚ, (consecutiveDeltas ts).length = ts.length - 1
  | [] => rfl
  | [_] => rfl
  | a :: b :: rest => by
    rw [show consecutiveDeltas (a :: b :: rest) = (b - a) :: consecutiveDeltas (b :: rest)
      from rfl]
    simp [consecutiveDeltas_length (b :: rest)]

/-- Claim C2 (corrected): every event emitted by `compute_desaturations` has
`start_time_local ≤ end_time_local`; the other half of the original claim,
pairwise non-overlap of the padded `[start, end]` intervals, fails (see the
counterexample). -/
theorem C2_start_le_end (df : List Sample) (t : ℤ) (m : ℚ) (e : DesatEvent)
    (he : e ∈ compute_desaturations df t m) :
    e.start_time_local ≤ e.end_time_local := by
  have hds : List.Sorted timeLE (dropNull (sortByTime df)) :=
    sorted_dropNull (sorted_sortByTime df)
  unfold compute_desaturations at he
  split at he
  · cases he
  · dsimp only at he
    split at he
    · cases he
    · rw [List.mem_filterMap] at he
      obtain ⟨r, hr, hfr⟩ := he
      split at hfr
      · cases hfr
      · have hev := Option.some.inj hfr
        unfold belowRuns at hr
        have hr1 : r ∈ splitRuns (belowFlag t) (dropNull (sortByTime df)) :=
          (List.mem_filter.mp hr).1
        have hrne := splitRuns_ne_nil _ _ _ hr1
        have hrs : List.Sorted timeLE r :=
          sorted_of_subSeg hds (subSeg_of_mem_splitRuns hr1)
        have h1 := firstTime_le_lastTime hrne hrs
        have h2 := estimate_sample_interval_nonneg hds
        rw [← hev]
        dsimp only
        linarith

/-- Claim C2 counterexample: on `overlapInput` with threshold 90 and minimum
duration 0, two events are emitted whose `[start, end]` intervals overlap:
the second starts at 22 while the first ends at 30. -/
theorem C2_counterexample :
    compute_desaturations overlapInput 90 0 =
      [{ start_time_local := 0, end_time_local := 30, duration_sec := 30,
         nadir_spo2 := 89, mean_spo2 := 89 },
       { start_time_local := 22, end_time_local := 52, duration_sec := 30,
         nadir_spo2 := 89, mean_spo2 := 89 }] ∧
    (22 : ℚ) < 30 ∧ (0 : ℚ) < 52 :=
  ⟨by with_unfolding_all rfl, by norm_num, by norm_num⟩

/-- Witness for C2 at the single Scenario A event. -/
theorem C2_witness :
    ({ start_time_local := 2, end_time_local := 8, duration_sec := 6,
       nadir_spo2 := 87, mean_spo2 := 88 } : DesatEvent).start_time_local ≤
    ({ start_time_local := 2, end_time_local := 8, duration_sec := 6,
       nadir_spo2 := 87, mean_spo2 := 88 } : DesatEvent).end_time_local := by
  have h : compute_desaturations scenarioA 90 5 =
      [{ start_time_local := 2, end_time_local := 8, duration_sec := 6,
         nadir_spo2 := 87, mean_spo2 := 88 }] := by with_unfolding_all rfl
  exact C2_start_le_end scenarioA 90 5 _ (by rw [h]; exact List.mem_singleton_self _)

/-- Claim C10: raising the threshold only adds or lengthens below-threshold
runs, never removes or shortens one: every below-threshold run identified at
threshold `t` over the processed samples is contained as a contiguous block
in a below-threshold run identified at any higher threshold. -/
theorem C10_threshold_monotone (df : List Sample) (t tHi : ℤ) (ht : t < tHi)
    (r : List Sample) (hr : r ∈ belowRuns t (dropNull (sortByTime df))) :
    ∃ rBig, rBig ∈ belowRuns tHi (dropNull (sortByTime df)) ∧ SubSeg r rBig := by
  unfold belowRuns at hr ⊢
  have hr1 : r ∈ splitRuns (belowFlag t) (dropNull (sortByTime df)) :=
    (List.mem_filter.mp hr).1
  have hhead := (List.mem_filter.mp hr).2
  have hrne := splitRuns_ne_nil _ _ _ hr1
  have halltrue : ∀ x ∈ r, belowFlag t x = true := by
    cases hc : r with
    | nil => exact absurd hc hrne
    | cons a rest =>
      subst hc
      have ha : belowFlag t a = true := by
        unfold headBelow at hhead
        simpa using hhead
      intro x hx
      rw [splitRuns_const (belowFlag t) _ _ hr1 x hx a (List.mem_cons_self _ _), ha]
  have halltrue' : ∀ x ∈ r, belowFlag tHi x = true := by
    intro x hx
    have hxt := halltrue x hx
    unfold belowFlag at hxt ⊢
    cases hsp : x.spo2 with
    | none => rw [hsp] at hxt; cases hxt
    | some v =>
      rw [hsp] at hxt
      simp only [decide_eq_true_eq] at hxt ⊢
      omega
  obtain ⟨rBig, hmem, htr, hsub⟩ :=
    subSegRun (belowFlag tHi) r hrne halltrue' _ (subSeg_of_mem_splitRuns hr1)
  refine ⟨rBig, List.mem_filter.mpr ⟨hmem, ?_⟩, hsub⟩
  have hbne := splitRuns_ne_nil _ _ _ hmem
  cases hc : rBig with
  | nil => exact absurd hc hbne
  | cons b rest =>
    subst hc
    unfold headBelow
    simpa using htr b (List.mem_cons_self _ _)

/-- Witness for C10: Scenario A's single-sample run at threshold 88 is
contained in a run at threshold 90. -/
theorem C10_witness :
    ∃ rBig, rBig ∈ belowRuns 90 (dropNull (sortByTime scenarioA)) ∧
      SubSeg [({ timestamp := 6, spo2 := some 87, hr := none } : Sample)] rBig :=
  C10_threshold_monotone scenarioA 88 90 (by decide) _ (by decide)

/-- Claim C6: the estimated sample interval is non-negative on ordered
samples; with at least two samples it equals the median of the consecutive
timestamp deltas (the first, undefined delta ignored), and with fewer than
two samples it is 0. -/
theorem C6_estimate_interval (df : List Sample) (hs : List.Sorted timeLE df) :
    0 ≤ estimate_sample_interval df ∧
    (2 ≤ df.length →
      estimate_sample_interval df = medianQ (consecutiveDeltas (df.map (·.timestamp)))) ∧
    (df.length < 2 → estimate_sample_interval df = 0) := by
  refine ⟨estimate_sample_interval_nonneg hs, ?_, ?_⟩
  · intro h2
    unfold estimate_sample_interval
    rw [if_neg (by omega)]
    dsimp only
    have hne : ¬ ((consecutiveDeltas (df.map (·.timestamp))).isEmpty = true) := by
      intro hcon
      have hnil := List.isEmpty_iff.mp hcon
      have hlen := consecutiveDeltas_length (df.map (·.timestamp))
      rw [hnil, List.length_map] at hlen
      simp at hlen
      omega
    rw [if_neg hne]
  · intro hlt
    unfold estimate_sample_interval
    rw [if_pos hlt]

/-- Witness for C6 at the sorted Scenario A input. -/
theorem C6_witness :
    List.Sorted timeLE scenarioA ∧ 0 ≤ estimate_sample_interval scenarioA :=
  ⟨by decide, (C6_estimate_interval scenarioA (by decide)).1⟩

/-- Claim C1 (corrected): when every sample carries a non-null SpO2 value,
the sum over all below-threshold runs of the pre-filter duration (raw span
plus estimated interval) that `compute_desaturations` computes equals the
`total_seconds_below` of `compute_time_below_threshold`; with missing SpO2
values the two functions group differently (see the counterexample). -/
theorem C1_sum_eq_total (df : List Sample) (t : ℤ)
    (hnn : ∀ s ∈ df, s.spo2.isSome = true) :
    ((belowRuns t (dropNull (sortByTime df))).map
      (fun r => lastTime r - firstTime r +
        estimate_sample_interval (dropNull (sortByTime df)))).sum =
    (compute_time_below_threshold df t).1 := by
  have hdrop : dropNull (sortByTime df) = sortByTime df :=
    List.filter_eq_self.mpr (fun s hs => hnn s (mem_sortByTime.mp hs))
  rw [hdrop]
  unfold compute_time_below_threshold
  by_cases hemp : df.isEmpty = true
  · have hdf : df = [] := List.isEmpty_iff.mp hemp
    subst hdf
    rfl
  · rw [if_neg hemp]

/-- Claim C1 counterexample: with a missing SpO2 value between two
below-threshold samples, `compute_desaturations` drops the row before
grouping (one run, estimated interval 4, sum 8) while
`compute_time_below_threshold` keeps it (two runs, estimated interval 2,
total 4). -/
theorem C1_counterexample :
    ((belowRuns 90 (dropNull (sortByTime nullGapInput))).map
      (fun r => lastTime r - firstTime r +
        estimate_sample_interval (dropNull (sortByTime nullGapInput)))).sum ≠
    (compute_time_below_threshold nullGapInput 90).1 := by
  have h1 : ((belowRuns 90 (dropNull (sortByTime nullGapInput))).map
      (fun r => lastTime r - firstTime r +
        estimate_sample_interval (dropNull (sortByTime nullGapInput)))).sum = 8 := by
    with_unfolding_all rfl
  have h2 : (compute_time_below_threshold nullGapInput 90).1 = 4 := by
    with_unfolding_all rfl
  rw [h1, h2]
  norm_num

/-- Witness for C1 at the all-non-null Scenario A input. -/
theorem C1_witness :
    (∀ s ∈ scenarioA, s.spo2.isSome = true) ∧
    ((belowRuns 90 (dropNull (sortByTime scenarioA))).map
      (fun r => lastTime r - firstTime r +
        estimate_sample_interval (dropNull (sortByTime scenarioA)))).sum =
    (compute_time_below_threshold scenarioA 90).1 :=
  ⟨by decide, C1_sum_eq_total scenarioA 90 (by decide)⟩

theorem filter_orderedInsert {α : Type} (r : α → α → Prop) [DecidableRel r]
    [IsTrans α r] (p : α → Bool) (a : α) :
    ∀ l : List α, List.Sorted r l →
      (List.orderedInsert r a l).filter p =
        if p a then List.orderedInsert r a (l.filter p) else l.filter p
  | [], _ => by
    by_cases hpa : p a <;> simp [List.orderedInsert, hpa]
  | b :: l, hs => by
    have hsl : List.Sorted r l := (List.sorted_cons.mp hs).2
    have hbl : ∀ c ∈ l, r b c := (List.sorted_cons.mp hs).1
    by_cases hab : r a b
    · rw [List.orderedInsert_of_le r _ hab]
      by_cases hpa : p a
      · rw [if_pos hpa, List.filter_cons, if_pos hpa]
        by_cases hpb : p b
        · rw [List.filter_cons, if_pos hpb, List.orderedInsert_of_le r _ hab]
        · rw [List.filter_cons, if_neg hpb]
          cases hf : l.filter p with
          | nil => simp [List.orderedInsert]
          | cons c cs =>
            have hc : c ∈ l :=
              List.mem_of_mem_filter (p := p) (by rw [hf]; exact List.mem_cons_self _ _)
            have hac : r a c := IsTrans.trans a b c hab (hbl c hc)
            rw [List.orderedInsert_of_le r _ hac]
      · rw [if_neg hpa, List.filter_cons, if_neg hpa]
    · have hoi : List.orderedInsert r a (b :: l) = b :: List.orderedInsert r a l := by
        simp [List.orderedInsert, hab]
      rw [hoi]
      by_cases hpb : p b
      · rw [List.filter_cons, if_pos hpb, filter_orderedInsert r p a l hsl,
          List.filter_cons, if_pos hpb]
        by_cases hpa : p a
        · rw [if_pos hpa, if_pos hpa]
          have hoi2 : List.orderedInsert r a (b :: l.filter p) =
              b :: List.orderedInsert r a (l.filter p) := by
            simp [List.orderedInsert, hab]
          rw [hoi2]
        · rw [if_neg hpa, if_neg hpa]
      · rw [List.filter_cons, if_neg hpb, filter_orderedInsert r p a l hsl,
          List.filter_cons, if_neg hpb]

theorem filter_insertionSort {α : Type} (r : α → α → Prop) [DecidableRel r]
    [IsTotal α r] [IsTrans α r] (p : α → Bool) :
    ∀ l : List α, (List.insertionSort r l).filter p = List.insertionSort r (l.filter p)
  | [] => rfl
  | a :: l => by
    rw [show List.insertionSort r (a :: l) = List.orderedInsert r a (List.insertionSort r l)
      from rfl]
    rw [filter_orderedInsert r p a _ (List.sorted_insertionSort r l)]
    rw [List.filter_cons]
    by_cases hpa : p a
    · rw [if_pos hpa, if_pos hpa, filter_insertionSort r p l]
      rfl
    · rw [if_neg hpa, if_neg hpa, filter_insertionSort r p l]

theorem dropNull_idem (l : List Sample) : dropNull (dropNull l) = dropNull l := by
  unfold dropNull
  rw [List.filter_filter]
  simp only [Bool.and_self]

theorem dropNull_sortByTime (df : List Sample) :
    dropNull (sortByTime df) = sortByTime (dropNull df) :=
  filter_insertionSort timeLE (fun s => s.spo2.isSome) df

/-- Claim C5: `compute_desaturations` excludes samples with missing SpO2 from
segmentation: its output equals the output on the input with those samples
removed, and an empty or all-null input yields an empty event list without
error. -/
theorem C5_null_excluded (df : List Sample) (t : ℤ) (m : ℚ) :
    compute_desaturations df t m = compute_desaturations (dropNull df) t m ∧
    ((∀ s ∈ df, s.spo2 = none) → compute_desaturations df t m = []) ∧
    compute_desaturations [] t m = [] := by
  have key : dropNull (sortByTime (dropNull df)) = dropNull (sortByTime df) := by
    rw [dropNull_sortByTime df, dropNull_sortByTime (dropNull df), dropNull_idem]
  have hmain : compute_desaturations df t m = compute_desaturations (dropNull df) t m := by
    unfold compute_desaturations
    dsimp only
    rw [key]
    by_cases h1 : df.isEmpty
    · have hdf : df = [] := List.isEmpty_iff.mp h1
      subst hdf
      rfl
    · rw [if_neg h1]
      by_cases h2 : (dropNull df).isEmpty
      · have hnil : dropNull df = [] := List.isEmpty_iff.mp h2
        have hds : dropNull (sortByTime df) = [] := by
          rw [dropNull_sortByTime df, hnil]
          rfl
        rw [if_pos h2, hds]
        rfl
      · rw [if_neg h2]
  refine ⟨hmain, ?_, rfl⟩
  intro hall
  have hnil : dropNull df = [] := by
    unfold dropNull
    rw [List.filter_eq_nil_iff]
    intro s hs
    rw [hall s hs]
    simp
  rw [hmain, hnil]
  rfl

/-- Witness for C5 at a concrete all-null input. -/
theorem C5_witness :
    (∀ s ∈ allNullInput, s.spo2 = none) ∧
    compute_desaturations allNullInput 90 10 = [] :=
  ⟨by decide, (C5_null_excluded allNullInput 90 10).2.1 (by decide)⟩

theorem splitRuns_map {α β : Type} (f : α → β) (p : β → Bool) :
    ∀ l : List α, splitRuns p (l.map f) = (splitRuns (fun x => p (f x)) l).map (List.map f)
  | [] => rfl
  | a :: rest => by
    have ih := splitRuns_map f p rest
    have hstepL : splitRuns p ((a :: rest).map f) =
        match splitRuns p (rest.map f) with
        | [] => [[f a]]
        | [] :: rs => [f a] :: rs
        | (b :: r) :: rs =>
          if p (f a) = p b then (f a :: b :: r) :: rs else [f a] :: (b :: r) :: rs := rfl
    have hstepR : splitRuns (fun x => p (f x)) (a :: rest) =
        match splitRuns (fun x => p (f x)) rest with
        | [] => [[a]]
        | [] :: rs => [a] :: rs
        | (b :: r) :: rs =>
          if p (f a) = p (f b) then (a :: b :: r) :: rs else [a] :: (b :: r) :: rs := rfl
    rw [hstepL, hstepR, ih]
    cases h : splitRuns (fun x => p (f x)) rest with
    | nil => rfl
    | cons r0 rs =>
      cases r0 with
      | nil => rfl
      | cons b r =>
        by_cases hpb : p (f a) = p (f b)
        · simp only [List.map_cons, if_pos hpb]
        · simp only [List.map_cons, List.map_nil, if_neg hpb]

theorem filterMap_eq_map_of {α β : Type} {f : α → Option β} {g : α → β} :
    ∀ {l : List α}, (∀ x ∈ l, f x = some (g x)) → l.filterMap f = l.map g
  | [], _ => rfl
  | a :: l, h => by
    have ha := h a (List.mem_cons_self _ _)
    rw [List.filterMap_cons, ha,
      filterMap_eq_map_of (fun x hx => h x (List.mem_cons_of_mem a hx))]
    rfl

theorem subSeg_subset {α : Type} {r l : List α} (h : SubSeg r l) : ∀ x ∈ r, x ∈ l := by
  obtain ⟨s, t, rfl⟩ := h
  intro x hx
  exact List.mem_append.mpr (Or.inl (List.mem_append.mpr (Or.inr hx)))

theorem clinicDt_map_fst (df : List Sample) : (clinicDt df).map Prod.fst = sortByTime df := by
  unfold clinicDt
  dsimp only
  apply List.map_fst_zip
  rw [List.length_cons, consecutiveDeltas_length, List.length_map]
  omega

theorem clinicDt_snd_nonneg (df : List Sample) : ∀ sd ∈ clinicDt df, 0 ≤ sd.2 := by
  intro sd hsd
  have hdel : ∀ d ∈ consecutiveDeltas ((sortByTime df).map (·.timestamp)), 0 ≤ d :=
    consecutiveDeltas_nonneg (sorted_timestamps (sorted_sortByTime df))
  unfold clinicDt at hsd
  dsimp only at hsd
  obtain ⟨h1, h2⟩ := List.of_mem_zip (a := sd.1) (b := sd.2) (by simpa using hsd)
  rcases List.mem_cons.mp h2 with heq | hmem
  · rw [heq]
    split
    · norm_num
    · exact medianQ_nonneg hdel
  · exact hdel _ hmem

theorem compute_desaturations_min0 (df : List Sample) (hne : ¬ df.isEmpty = true)
    (hnn : ∀ s ∈ df, s.spo2.isSome = true) (t : ℤ) :
    compute_desaturations df t 0 =
      (belowRuns t (sortByTime df)).map (fun r =>
        { start_time_local := firstTime r
          end_time_local := lastTime r + estimate_sample_interval (sortByTime df)
          duration_sec := lastTime r - firstTime r + estimate_sample_interval (sortByTime df)
          nadir_spo2 := runNadir r
          mean_spo2 := runMean r }) := by
  have hdropL : dropNull (sortByTime df) = sortByTime df :=
    List.filter_eq_self.mpr (fun s hs => hnn s (mem_sortByTime.mp hs))
  have hnemp : ¬ (sortByTime df).isEmpty = true := by
    intro hc
    have hnil := List.isEmpty_iff.mp hc
    cases hdfc : df with
    | nil => exact hne (by rw [hdfc]; rfl)
    | cons a rest =>
      have hmem : a ∈ sortByTime df :=
        mem_sortByTime.mpr (by rw [hdfc]; exact List.mem_cons_self _ _)
      rw [hnil] at hmem
      cases hmem
  unfold compute_desaturations
  rw [if_neg hne]
  dsimp only
  rw [hdropL, if_neg hnemp]
  apply filterMap_eq_map_of
  intro r hr
  have hs : List.Sorted timeLE (sortByTime df) := sorted_sortByTime df
  unfold belowRuns at hr
  have hr1 := (List.mem_filter.mp hr).1
  have hrne := splitRuns_ne_nil _ _ _ hr1
  have hrs := sorted_of_subSeg hs (subSeg_of_mem_splitRuns hr1)
  have h1 := firstTime_le_lastTime hrne hrs
  have h2 := estimate_sample_interval_nonneg hs
  rw [if_neg (by linarith)]

theorem detect_min0 (df : List Sample) (hne : ¬ (clinicDt df).isEmpty = true) (t : ℤ) :
    detect_desaturation_events (clinicDt df) t 0 =
      ((splitRuns (clinicBelow t) (clinicDt df)).filter
        (fun seg =>
          match seg.head? with
          | some sd => clinicBelow t sd
          | none => false)).map
        (fun seg =>
          { start_time := firstTime (seg.map (·.1))
            end_time := lastTime (seg.map (·.1))
            duration_sec := (seg.map (·.2)).sum
            nadir_spo2 := runNadir (seg.map (·.1))
            mean_spo2 := runMean (seg.map (·.1)) }) := by
  unfold detect_desaturation_events
  rw [if_neg hne]
  apply filterMap_eq_map_of
  intro seg hseg
  have hsub : SubSeg seg (clinicDt df) :=
    subSeg_of_mem_splitRuns (List.mem_filter.mp hseg).1
  have hnonneg : 0 ≤ (seg.map (·.2)).sum := by
    apply List.sum_nonneg
    intro q hq
    rw [List.mem_map] at hq
    obtain ⟨sd, hsd, rfl⟩ := hq
    exact clinicDt_snd_nonneg df sd (subSeg_subset hsub sd hsd)
  dsimp only
  rw [if_neg (by linarith)]

theorem headBelow_map_fst (t : ℤ) (seg : List (Sample × ℚ)) :
    headBelow t (seg.map Prod.fst) =
      match seg.head? with
      | some sd => clinicBelow t sd
      | none => false := by
  cases seg <;> rfl

/-- Claim C3 (corrected): on inputs with no missing SpO2 and with the
minimum-duration filter disabled, the dashboard's `compute_desaturations`
and the clinic app's `detect_desaturation_events` (fed `load_log`'s `dt_sec`
preprocessing) emit events for exactly the same below-threshold runs, with
the same start time, `nadir_spo2` and `mean_spo2` per event; their end times
and durations differ in general, since the dashboard pads both by the
estimated median interval while the clinic app sums per-row deltas and ends
events at the last sample (see the counterexample). -/
theorem C3_same_runs (df : List Sample) (t : ℤ)
    (hnn : ∀ s ∈ df, s.spo2.isSome = true) :
    (detect_desaturation_events (clinicDt df) t 0).map
        (fun c => (c.start_time, c.nadir_spo2, c.mean_spo2)) =
      (compute_desaturations df t 0).map
        (fun e => (e.start_time_local, e.nadir_spo2, e.mean_spo2)) := by
  by_cases hdf : df = []
  · subst hdf
    rfl
  · have hneL : ¬ df.isEmpty = true := by simpa [List.isEmpty_iff] using hdf
    have hCne : ¬ (clinicDt df).isEmpty = true := by
      intro hc
      have hnil := List.isEmpty_iff.mp hc
      have hfst := clinicDt_map_fst df
      rw [hnil] at hfst
      cases hdfc : df with
      | nil => exact hdf hdfc
      | cons a rest =>
        have hmem : a ∈ sortByTime df :=
          mem_sortByTime.mpr (by rw [hdfc]; exact List.mem_cons_self _ _)
        rw [← hfst] at hmem
        cases hmem
    rw [compute_desaturations_min0 df hneL hnn t, detect_min0 df hCne t]
    have hruns : splitRuns (belowFlag t) (sortByTime df) =
        (splitRuns (clinicBelow t) (clinicDt df)).map (List.map Prod.fst) := by
      rw [← clinicDt_map_fst df, splitRuns_map Prod.fst (belowFlag t) (clinicDt df)]
      rfl
    unfold belowRuns
    rw [hruns, List.filter_map, List.map_map, List.map_map]
    have hfilters :
        (splitRuns (clinicBelow t) (clinicDt df)).filter
            (fun seg =>
              match seg.head? with
              | some sd => clinicBelow t sd
              | none => false) =
        (splitRuns (clinicBelow t) (clinicDt df)).filter (headBelow t ∘ List.map Prod.fst) := by
      apply List.filter_congr
      intro seg _
      exact (headBelow_map_fst t seg).symm
    rw [hfilters, List.map_map]
    apply List.map_congr_left
    intro seg _
    rfl

/-- Claim C3 counterexample: on `irregularInput` the dashboard event ends at
9/2 with duration 7/2, while the clinic event ends at 3 with duration 3. -/
theorem C3_counterexample :
    (compute_desaturations irregularInput 90 0).map (·.end_time_local) = [9/2] ∧
    (detect_desaturation_events (clinicDt irregularInput) 90 0).map (·.end_time) = [3] ∧
    (compute_desaturations irregularInput 90 0).map (·.duration_sec) = [7/2] ∧
    (detect_desaturation_events (clinicDt irregularInput) 90 0).map (·.duration_sec) = [3] ∧
    ((9 : ℚ)/2 ≠ 3) ∧ ((7 : ℚ)/2 ≠ 3) :=
  ⟨by with_unfolding_all rfl, by with_unfolding_all rfl, by with_unfolding_all rfl,
   by with_unfolding_all rfl, by norm_num, by norm_num⟩

/-- Witness for C3 at the all-non-null Scenario A input. -/
theorem C3_witness :
    (∀ s ∈ scenarioA, s.spo2.isSome = true) ∧
    (detect_desaturation_events (clinicDt scenarioA) 90 0).map
        (fun c => (c.start_time, c.nadir_spo2, c.mean_spo2)) =
      (compute_desaturations scenarioA 90 0).map
        (fun e => (e.start_time_local, e.nadir_spo2, e.mean_spo2)) :=
  ⟨by decide, C3_same_runs scenarioA 90 (by decide)⟩
